import Mathlib

/-!
# Verification of the Pregel toy BSP engine

A shallow embedding of the repository's vertex-centric Bulk-Synchronous-Parallel
engine and of the epidemic example algorithm (`EpidemicVertex.update` from the
epidemic notebook), together with theorems settling the specification's claims.

The engine module `pregel.py` itself is not part of the source tree here (only
its callers — the epidemic notebook — and its documentation are), so the engine
is modelled from the specification: each such definition carries a doc comment
starting with `Modelled from the spec:`.  The epidemic vertex update and the
statistics callback are translated directly from the notebook source.
-/

namespace Pregel

/-- Modelled from the spec: a message (§3) carries a destination vertex
identity, a numeric edge weight and an algorithm-defined payload; messages are
immutable after creation.  In the epidemic notebook messages are the triples
`(v, 1, 1)`. -/
structure Msg (mu : Type) where
  dest : Nat
  weight : Int
  payload : mu
deriving Repr, DecidableEq

/-- Modelled from the spec: a vertex (§3) with its stable identity, mutable
value, ordered out-neighbor identities, current inbox, pending outbox, the
active/halted flag and the superstep index written by the orchestrator.
Field names follow the Python source (`id`, `value`, `out_vertices`,
`incoming_messages`, `outgoing_messages`, `active`, `superstep`). -/
structure Vertex (alpha mu : Type) where
  id : Nat
  value : alpha
  out_vertices : List Nat
  incoming_messages : List (Msg mu)
  outgoing_messages : List (Msg mu)
  active : Bool
  superstep : Nat
deriving Repr, DecidableEq

/-- Modelled from the spec: the vertex construction interface (§6) takes an
identity, an initial value, the out-neighbor identities and an initial inbox;
the outbox starts empty and the vertex starts active at superstep 0. -/
def Vertex.make (id : Nat) (value : alpha) (out : List Nat)
    (inbox : List (Msg mu)) : Vertex alpha mu :=
  { id := id, value := value, out_vertices := out,
    incoming_messages := inbox, outgoing_messages := [],
    active := true, superstep := 0 }

/-- Modelled from the spec: the run configuration surface (§6) — the plug-in
algorithm's `update`, the worker count, and the optional statistics callback
taking the full vertex collection and the superstep index.  (The notebook's
own callback `epidemic_stats` takes only the vertex collection and reads the
index from `vertices[0].superstep`; the spec's interface passes the index as a
second argument, which is how it is modelled here.)  The optional
maximum-superstep bound is the fuel argument of `runFor` below. -/
structure PregelConfig (alpha mu sigma : Type) where
  update : Vertex alpha mu → Vertex alpha mu
  num_workers : Nat
  stats_fn : Option (List (Vertex alpha mu) → Nat → sigma)

/-- Modelled from the spec: the orchestrator's run state (§3) — the vertex
collection, the global superstep counter, and the accumulated statistics log
(`p.data` in the notebook). -/
structure PregelState (alpha mu sigma : Type) where
  vertices : List (Vertex alpha mu)
  superstep : Nat
  data : List sigma
deriving Repr, DecidableEq

/-- Modelled from the spec: the orchestrator sets every vertex's (read-only)
superstep index before the update calls of a round (§3). -/
def setSuperstep (t : Nat) (vs : List (Vertex alpha mu)) : List (Vertex alpha mu) :=
  vs.map (fun v => { v with superstep := t })

/-- Modelled from the spec: a worker calls `update()` on each vertex of its
partition that is still active, and leaves halted vertices untouched (§4.3
step 1). -/
def updateIfActive (upd : Vertex alpha mu → Vertex alpha mu)
    (v : Vertex alpha mu) : Vertex alpha mu :=
  if v.active then upd v else v

/-- Modelled from the spec: the partitioner (§4.2) — a contiguous, balanced
range partition of the vertex list into `W` disjoint slices covering every
vertex exactly once; with more workers than vertices some slices are empty. -/
def splitChunks : Nat → List beta → List (List beta)
  | 0, _ => []
  | 1, xs => [xs]
  | W + 2, xs =>
      xs.take ((xs.length + W + 1) / (W + 2))
        :: splitChunks (W + 1) (xs.drop ((xs.length + W + 1) / (W + 2)))

/-- Modelled from the spec: one worker runs `update` sequentially over its
partition (§4.3 step 1). -/
def runWorker (upd : Vertex alpha mu → Vertex alpha mu)
    (part : List (Vertex alpha mu)) : List (Vertex alpha mu) :=
  part.map (updateIfActive upd)

/-- Modelled from the spec: the dispatch phase (§4.3 steps 1–2) — partition the
vertices across `W` workers, each worker updates its own slice (the workers
touch disjoint vertices, so their parallel composition is their sequential
composition), and the barrier re-joins the slices in order. -/
def dispatch (upd : Vertex alpha mu → Vertex alpha mu) (W : Nat)
    (vs : List (Vertex alpha mu)) : List (Vertex alpha mu) :=
  ((splitChunks W vs).map (runWorker upd)).flatten

/-- All messages pending in the vertices' outboxes, in vertex order. -/
def allOutgoing (vs : List (Vertex alpha mu)) : List (Msg mu) :=
  (vs.map (fun v => v.outgoing_messages)).flatten

/-- Whether some vertex of the collection has the given identity. -/
def hasVertex (vs : List (Vertex alpha mu)) (i : Nat) : Bool :=
  vs.any (fun v => v.id == i)

/-- Modelled from the spec: delivery to one vertex (§4.3 step 3) — its new
inbox is exactly the pending messages addressed to its identity (in stable
collection order), its outbox is cleared, and a halted vertex receiving at
least one message is reactivated before the inbox is delivered (§4.1). -/
def deliver (msgs : List (Msg mu)) (v : Vertex alpha mu) : Vertex alpha mu :=
  let inbox := msgs.filter (fun m => m.dest == v.id)
  { v with incoming_messages := inbox,
           outgoing_messages := [],
           active := v.active || !inbox.isEmpty }

/-- Modelled from the spec: the routing phase (§4.3 step 3, §7) — collect every
outbox, and if any message is addressed to an unknown vertex identity abort
with a fatal error naming that destination (no partial delivery); otherwise
install each destination's group as its inbox for the next superstep and clear
all outboxes. -/
def route (vs : List (Vertex alpha mu)) : Except Nat (List (Vertex alpha mu)) :=
  let msgs := allOutgoing vs
  match msgs.find? (fun m => !hasVertex vs m.dest) with
  | some m => Except.error m.dest
  | none => Except.ok (vs.map (deliver msgs))

/-- Modelled from the spec: the computation half of one superstep — set the
superstep index on every vertex, then dispatch the update calls (§4.3 steps
1–2). -/
def dispatchPhase (cfg : PregelConfig alpha mu sigma)
    (s : PregelState alpha mu sigma) : List (Vertex alpha mu) :=
  dispatch cfg.update cfg.num_workers (setSuperstep s.superstep s.vertices)

/-- Modelled from the spec: one full superstep (§4.3) — dispatch, barrier,
routing (aborting on a routing error), then the statistics hook observing the
full vertex collection and the current superstep index, then the counter
increment. -/
def stepOnce (cfg : PregelConfig alpha mu sigma)
    (s : PregelState alpha mu sigma) : Except Nat (PregelState alpha mu sigma) :=
  match route (dispatchPhase cfg s) with
  | Except.error d => Except.error d
  | Except.ok vs2 =>
      Except.ok { vertices := vs2,
                  superstep := s.superstep + 1,
                  data := match cfg.stats_fn with
                          | some f => s.data ++ [f vs2 s.superstep]
                          | none => s.data }

/-- Modelled from the spec: the global halt condition (§4.3 step 5) — no vertex
is active and no vertex has a non-empty inbox scheduled for the next round. -/
def haltCondition (vs : List (Vertex alpha mu)) : Bool :=
  !(vs.any (fun v => v.active)) && vs.all (fun v => v.incoming_messages.isEmpty)

/-- Modelled from the spec: the superstep loop of `run()` (§4.3 step 6) with an
explicit maximum-superstep bound as fuel — before each round the halt condition
is checked, a routing error aborts the whole run, and exhausting the bound
stops the run. -/
def runFor (cfg : PregelConfig alpha mu sigma) :
    Nat → PregelState alpha mu sigma → Except Nat (PregelState alpha mu sigma)
  | 0, s => Except.ok s
  | fuel + 1, s =>
      if haltCondition s.vertices then Except.ok s
      else match stepOnce cfg s with
           | Except.error d => Except.error d
           | Except.ok s2 => runFor cfg fuel s2

/-- The raw superstep trace: the state after `t` supersteps have run, with no
halt check — used to speak about an unbounded run. -/
def iterSteps (cfg : PregelConfig alpha mu sigma)
    (s0 : PregelState alpha mu sigma) : Nat → Except Nat (PregelState alpha mu sigma)
  | 0 => Except.ok s0
  | t + 1 =>
      match iterSteps cfg s0 t with
      | Except.error d => Except.error d
      | Except.ok s => stepOnce cfg s

/-- Modelled from the spec: the initial run state — superstep counter 0, empty
statistics log (§3, §4.3). -/
def initState (vs : List (Vertex alpha mu)) : PregelState alpha mu sigma :=
  { vertices := vs, superstep := 0, data := [] }

/-- The epidemic model's per-message infection loop, translated from the
notebook source: `for v, w, msg in self.incoming_messages: if random.random()
< p: self.value = 1`.  The successive outcomes of the draws
`random.random() < p` are supplied by the oracle `coins`. -/
def infectFold (coins : Nat → Bool) (n : Nat) (val : Int) : Int :=
  (List.range n).foldl (fun acc i => if coins i then 1 else acc) val

/-- `EpidemicVertex.update`, translated from the notebook source.  The global
parameters `ti` (incubation time) and `nsteps` (number of time steps) are
passed explicitly; the probabilistic draws of the not-infected branch are
supplied by the oracle `coins`. -/
def EpidemicVertex.update (ti : Int) (nsteps : Nat) (coins : Nat → Bool)
    (v : Vertex Int Int) : Vertex Int Int :=
  if v.superstep = 0 then
    if v.id = 0 then { v with value := 1 }
    else { v with value := 0 }
  else if v.superstep < nsteps then
    if v.value = -1 then { v with active := false }
    else if v.value > 0 then
      if v.value ≤ ti then
        { v with value := v.value + 1,
                 outgoing_messages :=
                   v.out_vertices.map
                     (fun u => { dest := u, weight := 1, payload := 1 }) }
      else { v with value := -1, active := false }
    else
      { v with value := infectFold coins v.incoming_messages.length v.value }
  else { v with active := false }

/-- Modelled from the spec: `pagerank.py` is absent from the source tree; per
the tutorial notebook, each outgoing message's payload is the vertex's current
pagerank estimate divided by its number of outgoing edges.  Python raises
`ZeroDivisionError` when the vertex has no outgoing edges (tutorial Exercise 1;
README TODO), modelled as `none`. -/
def pagerankOutgoing (value : Rat) (out : List Nat) : Option (List (Msg Rat)) :=
  if out.length = 0 then none
  else some (out.map
    (fun u => { dest := u, weight := 1, payload := value / (out.length : Rat) }))

/-! ## Structural lemmas about the engine -/

/-- The contiguous partition reassembles to the original list whenever at
least one worker exists. -/
theorem splitChunks_flatten :
    ∀ (W : Nat), 1 ≤ W → ∀ (xs : List beta), (splitChunks W xs).flatten = xs
  | 0, h, _ => by omega
  | 1, _, xs => by simp [splitChunks]
  | W + 2, _, xs => by
      have ih := splitChunks_flatten (W + 1) (by omega)
        (xs.drop ((xs.length + W + 1) / (W + 2)))
      simp [splitChunks, ih]

/-- With at least one worker, the dispatch phase is the per-vertex update map:
partitioning does not change which updates run nor their per-vertex effect. -/
theorem dispatch_eq_map (upd : Vertex alpha mu → Vertex alpha mu) (W : Nat)
    (hW : 1 ≤ W) (vs : List (Vertex alpha mu)) :
    dispatch upd W vs = vs.map (updateIfActive upd) := by
  unfold dispatch runWorker
  rw [← List.map_flatten, splitChunks_flatten W hW]

/-- Helper: grouping `m :: ms` by destination over a duplicate-free identity
list containing `m.dest` is, up to permutation, `m` in front of the grouping of
`ms`. -/
theorem flatten_filter_cons_perm {m : Msg mu} :
    ∀ (ids : List Nat), ids.Nodup → m.dest ∈ ids → ∀ (ms : List (Msg mu)),
      ((ids.map (fun i => (m :: ms).filter (fun x => x.dest == i))).flatten).Perm
        (m :: (ids.map (fun i => ms.filter (fun x => x.dest == i))).flatten)
  | [], _, hd, _ => absurd hd (List.not_mem_nil _)
  | i :: rest, hnd, hd, ms => by
      rcases List.mem_cons.mp hd with hi | hrest
      · have hfk : (m :: ms).filter (fun x => x.dest == i)
            = m :: ms.filter (fun x => x.dest == i) :=
          List.filter_cons_of_pos (by simpa using hi)
        have hrest' : ∀ j ∈ rest,
            (fun i => (m :: ms).filter (fun x => x.dest == i)) j
              = (fun i => ms.filter (fun x => x.dest == i)) j := by
          intro j hj
          have hne : m.dest ≠ j := by
            intro hEq
            exact (List.nodup_cons.mp hnd).1 (hi ▸ hEq ▸ hj)
          simpa using List.filter_cons_of_neg (by simpa using hne)
        simp only [List.map_cons, List.flatten_cons, hfk,
          List.map_congr_left hrest']
        exact List.Perm.refl _
      · have hfk : (m :: ms).filter (fun x => x.dest == i)
            = ms.filter (fun x => x.dest == i) := by
          have hne : m.dest ≠ i := by
            intro hEq
            exact (List.nodup_cons.mp hnd).1 (hEq ▸ hrest)
          exact List.filter_cons_of_neg (by simpa using hne)
        have ih := flatten_filter_cons_perm rest (List.nodup_cons.mp hnd).2
          hrest ms
        simp only [List.map_cons, List.flatten_cons, hfk]
        refine (List.Perm.append_left _ ih).trans ?_
        exact List.perm_middle

/-- Grouping messages by destination over a duplicate-free identity list, with
every destination present, is a permutation of the original message list. -/
theorem flatten_filter_perm (ids : List Nat) :
    ∀ (msgs : List (Msg mu)), ids.Nodup → (∀ m ∈ msgs, m.dest ∈ ids) →
      ((ids.map (fun i => msgs.filter (fun m => m.dest == i))).flatten).Perm msgs
  | [], _, _ => by simp
  | m :: ms, hnd, hmem => by
      have hd : m.dest ∈ ids := hmem m (List.mem_cons_self m ms)
      have ih := flatten_filter_perm ids ms hnd
        (fun x hx => hmem x (List.mem_cons_of_mem m hx))
      exact (flatten_filter_cons_perm ids hnd hd ms).trans (ih.cons m)

/-- If every pending message is addressed to an existing vertex, routing
succeeds and delivers to every vertex. -/
theorem route_ok (vs : List (Vertex alpha mu))
    (hvalid : ∀ m ∈ allOutgoing vs, hasVertex vs m.dest = true) :
    route vs = Except.ok (vs.map (deliver (allOutgoing vs))) := by
  unfold route
  have hnone : (allOutgoing vs).find? (fun m => !hasVertex vs m.dest) = none := by
    apply List.find?_eq_none.mpr
    intro m hm
    simp [hvalid m hm]
  simp only [hnone]

/-- With at least one worker, changing only the worker count does not change
the outcome of a superstep. -/
theorem stepOnce_workers_eq (cfg : PregelConfig alpha mu sigma)
    (W1 W2 : Nat) (h1 : 1 ≤ W1) (h2 : 1 ≤ W2)
    (s : PregelState alpha mu sigma) :
    stepOnce { cfg with num_workers := W1 } s
      = stepOnce { cfg with num_workers := W2 } s := by
  have hdp : dispatchPhase { cfg with num_workers := W1 } s
      = dispatchPhase { cfg with num_workers := W2 } s := by
    unfold dispatchPhase
    simp only [dispatch_eq_map _ W1 h1, dispatch_eq_map _ W2 h2]
  unfold stepOnce
  rw [hdp]

/-! ## Claim theorems -/

/-- C6: partition-count invariance — two runs of the engine on the same input
that differ only in worker count produce identical results (in particular,
identical final values for every vertex), for every graph, every plug-in
algorithm (a fortiori for every commutative/associative reduction) and every
superstep bound. -/
theorem claim_C6_partition_invariance (cfg : PregelConfig alpha mu sigma)
    (W1 W2 : Nat) (h1 : 1 ≤ W1) (h2 : 1 ≤ W2) (fuel : Nat)
    (s : PregelState alpha mu sigma) :
    runFor { cfg with num_workers := W1 } fuel s
      = runFor { cfg with num_workers := W2 } fuel s := by
  induction fuel generalizing s with
  | zero => rfl
  | succ n ih =>
      unfold runFor
      by_cases hh : haltCondition s.vertices
      · simp [hh]
      · simp only [hh, Bool.false_eq_true, if_false]
        rw [stepOnce_workers_eq cfg W1 W2 h1 h2 s]
        cases stepOnce { cfg with num_workers := W2 } s with
        | error d => rfl
        | ok s2 => exact ih s2

/-- C2: message conservation — whenever every pending message of superstep `t`
is addressed to some vertex and vertex identities are duplicate-free, the
routing phase succeeds, installs as each vertex's inbox for superstep `t+1`
exactly the pending messages addressed to its identity, delivers the multiset
of all pending outbox messages exactly (no loss, duplication or misdelivery),
and leaves every outbox empty. -/
theorem claim_C2_message_conservation (cfg : PregelConfig alpha mu sigma)
    (s : PregelState alpha mu sigma)
    (hnd : ((dispatchPhase cfg s).map (fun v => v.id)).Nodup)
    (hvalid : ∀ m ∈ allOutgoing (dispatchPhase cfg s),
        ∃ v ∈ dispatchPhase cfg s, v.id = m.dest) :
    ∃ s2, stepOnce cfg s = Except.ok s2
      ∧ (∀ v ∈ s2.vertices, v.incoming_messages
            = (allOutgoing (dispatchPhase cfg s)).filter (fun m => m.dest == v.id))
      ∧ ((s2.vertices.map (fun v => v.incoming_messages)).flatten).Perm
          (allOutgoing (dispatchPhase cfg s))
      ∧ (∀ v ∈ s2.vertices, v.outgoing_messages = []) := by
  set vs := dispatchPhase cfg s with hvs
  set msgs := allOutgoing vs with hmsgs
  have hhas : ∀ m ∈ msgs, hasVertex vs m.dest = true := by
    intro m hm
    obtain ⟨v, hv, hid⟩ := hvalid m hm
    unfold hasVertex
    rw [List.any_eq_true]
    exact ⟨v, hv, by simp [hid]⟩
  have hroute := route_ok vs hhas
  refine ⟨{ vertices := vs.map (deliver msgs),
            superstep := s.superstep + 1,
            data := match cfg.stats_fn with
                    | some f => s.data ++ [f (vs.map (deliver msgs)) s.superstep]
                    | none => s.data }, ?_, ?_, ?_, ?_⟩
  · unfold stepOnce
    rw [← hvs, hroute]
  · intro v hv
    obtain ⟨w, _, rfl⟩ := List.mem_map.mp hv
    rfl
  · show ((((vs.map (deliver msgs))).map
        (fun v => v.incoming_messages)).flatten).Perm msgs
    have hmapmap : ((vs.map (deliver msgs))).map (fun v => v.incoming_messages)
        = (vs.map (fun v => v.id)).map
            (fun i => msgs.filter (fun m => m.dest == i)) := by
      simp only [List.map_map]
      rfl
    rw [hmapmap]
    apply flatten_filter_perm
    · exact hnd
    · intro m hm
      obtain ⟨v, hv, hid⟩ := hvalid m hm
      exact List.mem_map.mpr ⟨v, hv, hid⟩
  · intro v hv
    obtain ⟨w, _, rfl⟩ := List.mem_map.mp hv
    rfl

/-- Inversion: a successful routing is delivery of all pending messages. -/
theorem route_ok_inv {vs vs2 : List (Vertex alpha mu)}
    (h : route vs = Except.ok vs2) :
    vs2 = vs.map (deliver (allOutgoing vs)) := by
  unfold route at h
  rcases hf : (allOutgoing vs).find? (fun m => !hasVertex vs m.dest) with _ | m
  · simp only [hf] at h
    exact (Except.ok.injEq _ _).mp h.symm
  · simp only [hf] at h
    cases h

/-- Inversion: a successful superstep dispatches the updates, routes the
resulting messages, and increments the counter. -/
theorem stepOnce_ok_inv {cfg : PregelConfig alpha mu sigma}
    {s s2 : PregelState alpha mu sigma} (h : stepOnce cfg s = Except.ok s2) :
    s2.vertices = (dispatchPhase cfg s).map
        (deliver (allOutgoing (dispatchPhase cfg s)))
      ∧ s2.superstep = s.superstep + 1 := by
  unfold stepOnce at h
  rcases hr : route (dispatchPhase cfg s) with d | vs2
  · rw [hr] at h
    cases h
  · rw [hr] at h
    have h2 := (Except.ok.injEq _ _).mp h
    rw [← h2]
    exact ⟨route_ok_inv hr, rfl⟩

/-- Inversion: a trace of `t+1` supersteps passes through a state after `t`. -/
theorem iterSteps_succ_inv {cfg : PregelConfig alpha mu sigma}
    {s0 s : PregelState alpha mu sigma} {t : Nat}
    (h : iterSteps cfg s0 (t + 1) = Except.ok s) :
    ∃ sp, iterSteps cfg s0 t = Except.ok sp ∧ stepOnce cfg sp = Except.ok s := by
  unfold iterSteps at h
  rcases hp : iterSteps cfg s0 t with d | sp
  · rw [hp] at h
    cases h
  · rw [hp] at h
    exact ⟨sp, rfl, h⟩

/-- Every state reached by the trace has all outboxes empty, provided the
initial state does: routing clears every outbox. -/
theorem iterSteps_outboxes_empty {cfg : PregelConfig alpha mu sigma}
    {s0 : PregelState alpha mu sigma}
    (h0 : ∀ v ∈ s0.vertices, v.outgoing_messages = []) :
    ∀ t s, iterSteps cfg s0 t = Except.ok s →
      ∀ v ∈ s.vertices, v.outgoing_messages = [] := by
  intro t
  induction t with
  | zero =>
      intro s hs
      have : s0 = s := (Except.ok.injEq _ _).mp hs
      exact this ▸ h0
  | succ n ih =>
      intro s hs
      obtain ⟨sp, _, hstep⟩ := iterSteps_succ_inv hs
      intro v hv
      rw [(stepOnce_ok_inv hstep).1] at hv
      obtain ⟨w, _, rfl⟩ := List.mem_map.mp hv
      rfl

/-- C1: temporal isolation — at every superstep `t+1` of the trace, a vertex's
inbox is exactly the messages addressed to it among those produced during
superstep `t`, and the messages produced during superstep `t` are exactly the
outputs of the `update()` calls of that round (halted vertices contribute
nothing); hence the inbox never contains a message from the current round or
from rounds before the previous one. -/
theorem claim_C1_temporal_isolation (cfg : PregelConfig alpha mu sigma)
    (hW : 1 ≤ cfg.num_workers) (s0 : PregelState alpha mu sigma)
    (h0 : ∀ v ∈ s0.vertices, v.outgoing_messages = [])
    (t : Nat) (sprev s : PregelState alpha mu sigma)
    (hprev : iterSteps cfg s0 t = Except.ok sprev)
    (hcur : iterSteps cfg s0 (t + 1) = Except.ok s) :
    (∀ v ∈ s.vertices, v.incoming_messages
        = (allOutgoing (dispatchPhase cfg sprev)).filter (fun m => m.dest == v.id))
    ∧ allOutgoing (dispatchPhase cfg sprev)
        = ((setSuperstep sprev.superstep sprev.vertices).map
            (fun v => if v.active then (cfg.update v).outgoing_messages
                      else [])).flatten := by
  obtain ⟨sp, hp, hstep⟩ := iterSteps_succ_inv hcur
  have hsp : sp = sprev := by
    rw [hprev] at hp
    exact ((Except.ok.injEq _ _).mp hp).symm
  rw [hsp] at hstep
  constructor
  · intro v hv
    rw [(stepOnce_ok_inv hstep).1] at hv
    obtain ⟨w, _, rfl⟩ := List.mem_map.mp hv
    rfl
  · have hempty := iterSteps_outboxes_empty h0 t sprev hprev
    unfold dispatchPhase allOutgoing
    rw [dispatch_eq_map _ _ hW]
    rw [List.map_map]
    congr 1
    apply List.map_congr_left
    intro v hv
    obtain ⟨w, hw, rfl⟩ := List.mem_map.mp hv
    show (updateIfActive cfg.update { w with superstep := sprev.superstep
        }).outgoing_messages = _
    unfold updateIfActive
    by_cases ha : w.active
    · simp [ha]
    · simp [ha, hempty w hw]

/-- The trace unfolded at the front: `t+1` supersteps are one superstep
followed by `t` supersteps from the successor state. -/
theorem iterSteps_succ_front (cfg : PregelConfig alpha mu sigma)
    (s0 : PregelState alpha mu sigma) (t : Nat) :
    iterSteps cfg s0 (t + 1)
      = match stepOnce cfg s0 with
        | Except.error d => Except.error d
        | Except.ok s1 => iterSteps cfg s1 t := by
  induction t with
  | zero =>
      show stepOnce cfg s0 = _
      rcases hstep : stepOnce cfg s0 with d | s1
      · rfl
      · rfl
  | succ n ih =>
      show (match iterSteps cfg s0 (n + 1) with
            | Except.error d => Except.error d
            | Except.ok s => stepOnce cfg s) = _
      rw [ih]
      rcases stepOnce cfg s0 with d | s1
      · rfl
      · rfl

/-- C3: termination condition of the superstep loop — the loop stops
immediately when no vertex is active and no inbox is non-empty; it stops when
the configured maximum-superstep bound is exhausted; while neither holds it
performs another superstep; and when no reachable state ever satisfies the
halt condition, the run continues indefinitely: for every bound `u`, all `u`
supersteps of the unbounded trace are executed. -/
theorem claim_C3_termination (cfg : PregelConfig alpha mu sigma) :
    (∀ (s : PregelState alpha mu sigma) (fuel : Nat),
        haltCondition s.vertices = true → runFor cfg fuel s = Except.ok s)
  ∧ (∀ s : PregelState alpha mu sigma, runFor cfg 0 s = Except.ok s)
  ∧ (∀ (s : PregelState alpha mu sigma) (fuel : Nat),
        haltCondition s.vertices = false →
        runFor cfg (fuel + 1) s
          = match stepOnce cfg s with
            | Except.error d => Except.error d
            | Except.ok s2 => runFor cfg fuel s2)
  ∧ (∀ s0 : PregelState alpha mu sigma,
        (∀ u s, iterSteps cfg s0 u = Except.ok s →
            haltCondition s.vertices = false) →
        ∀ u, runFor cfg u s0 = iterSteps cfg s0 u) := by
  refine ⟨?_, ?_, ?_, ?_⟩
  · intro s fuel h
    cases fuel with
    | zero => rfl
    | succ n =>
        unfold runFor
        simp [h]
  · intro s
    rfl
  · intro s fuel h
    show (if haltCondition s.vertices then Except.ok s
          else match stepOnce cfg s with
               | Except.error d => Except.error d
               | Except.ok s2 => runFor cfg fuel s2) = _
    rw [h]
    simp
  · intro s0 hnever u
    induction u generalizing s0 with
    | zero => rfl
    | succ n ih =>
        have h0 : haltCondition s0.vertices = false := hnever 0 s0 rfl
        rw [iterSteps_succ_front]
        show (if haltCondition s0.vertices then Except.ok s0
              else match stepOnce cfg s0 with
                   | Except.error d => Except.error d
                   | Except.ok s2 => runFor cfg n s2) = _
        rw [h0]
        simp only [Bool.false_eq_true, if_false]
        rcases hstep : stepOnce cfg s0 with d | s1
        · rfl
        · apply ih s1
          intro u' s hs
          apply hnever (u' + 1) s
          rw [iterSteps_succ_front, hstep]
          exact hs

/-- C4: routing error handling — if some `update()` of the current superstep
produced a message whose destination identity is not in the vertex collection,
the superstep aborts at message-delivery time with a fatal error naming an
offending destination, the error propagates to the caller of the run loop, and
no successor state is produced (no partial delivery of that superstep's
messages); the message is not silently dropped. -/
theorem claim_C4_routing_error (cfg : PregelConfig alpha mu sigma)
    (s : PregelState alpha mu sigma) (fuel : Nat)
    (hrunning : haltCondition s.vertices = false)
    (hbad : ∃ m ∈ allOutgoing (dispatchPhase cfg s),
        hasVertex (dispatchPhase cfg s) m.dest = false) :
    ∃ d, hasVertex (dispatchPhase cfg s) d = false
      ∧ stepOnce cfg s = Except.error d
      ∧ runFor cfg (fuel + 1) s = Except.error d := by
  have hsome : ((allOutgoing (dispatchPhase cfg s)).find?
      (fun m => !hasVertex (dispatchPhase cfg s) m.dest)).isSome := by
    rw [List.find?_isSome]
    obtain ⟨m, hm, hmf⟩ := hbad
    exact ⟨m, hm, by simp [hmf]⟩
  obtain ⟨m0, hf⟩ := Option.isSome_iff_exists.mp hsome
  have hm0 : hasVertex (dispatchPhase cfg s) m0.dest = false := by
    have := List.find?_some hf
    simpa using this
  have hstep : stepOnce cfg s = Except.error m0.dest := by
    unfold stepOnce route
    simp only [hf]
  refine ⟨m0.dest, hm0, hstep, ?_⟩
  show (if haltCondition s.vertices then Except.ok s
        else match stepOnce cfg s with
             | Except.error d => Except.error d
             | Except.ok s2 => runFor cfg fuel s2) = _
  rw [hrunning, hstep]
  simp

/-- C7: statistics hook contract — with a callback configured, every completed
superstep appends exactly one record to the run's log, namely the callback
applied to the full (post-routing) vertex collection and the current superstep
index, in superstep order (so after `t` supersteps the log has grown by
exactly `t` records); and the invocation is purely observational: the vertex
collection and counter produced by the superstep coincide with those produced
when no callback is configured. -/
theorem claim_C7_statistics_hook (cfg : PregelConfig alpha mu sigma)
    (f : List (Vertex alpha mu) → Nat → sigma) (hf : cfg.stats_fn = some f) :
    (∀ (s s2 : PregelState alpha mu sigma), stepOnce cfg s = Except.ok s2 →
        s2.data = s.data ++ [f s2.vertices s.superstep]
        ∧ ∃ s3, stepOnce { cfg with stats_fn := none } s = Except.ok s3
            ∧ s3.vertices = s2.vertices ∧ s3.superstep = s2.superstep)
  ∧ (∀ (s0 : PregelState alpha mu sigma) (t : Nat)
        (st : PregelState alpha mu sigma),
        iterSteps cfg s0 t = Except.ok st →
        st.data.length = s0.data.length + t) := by
  have hdp : ∀ s : PregelState alpha mu sigma,
      dispatchPhase { cfg with stats_fn := none } s = dispatchPhase cfg s :=
    fun _ => rfl
  have key : ∀ (s s2 : PregelState alpha mu sigma),
      stepOnce cfg s = Except.ok s2 →
      s2.data = s.data ++ [f s2.vertices s.superstep]
      ∧ ∃ s3, stepOnce { cfg with stats_fn := none } s = Except.ok s3
          ∧ s3.vertices = s2.vertices ∧ s3.superstep = s2.superstep := by
    intro s s2 h
    unfold stepOnce at h ⊢
    rw [hdp]
    rcases hr : route (dispatchPhase cfg s) with d | vs2
    · rw [hr] at h
      cases h
    · rw [hr] at h
      rw [hf] at h
      have h2 := (Except.ok.injEq _ _).mp h
      subst h2
      exact ⟨rfl, ⟨_, rfl, rfl, rfl⟩⟩
  refine ⟨key, ?_⟩
  intro s0 t
  induction t with
  | zero =>
      intro st h
      have : s0 = st := (Except.ok.injEq _ _).mp h
      rw [← this]
      rfl
  | succ n ih =>
      intro st h
      obtain ⟨sp, hp, hstep⟩ := iterSteps_succ_inv h
      have hdata := (key sp st hstep).1
      rw [hdata, List.length_append, ih sp hp]
      simp [Nat.add_assoc]

/-- A worker applies `update` to an active vertex. -/
theorem updateIfActive_of_active (upd : Vertex alpha mu → Vertex alpha mu)
    {v : Vertex alpha mu} (h : v.active = true) : updateIfActive upd v = upd v := by
  simp [updateIfActive, h]

/-- A worker skips a halted vertex. -/
theorem updateIfActive_of_halted (upd : Vertex alpha mu → Vertex alpha mu)
    {v : Vertex alpha mu} (h : v.active = false) : updateIfActive upd v = v := by
  simp [updateIfActive, h]

/-- Positional view of the dispatch phase: the vertex at position `k` is
updated (when active) after its superstep index is set, independently of the
other vertices. -/
theorem dispatchPhase_getElem? (cfg : PregelConfig alpha mu sigma)
    (hW : 1 ≤ cfg.num_workers) (s : PregelState alpha mu sigma) (k : Nat) :
    (dispatchPhase cfg s)[k]? = (s.vertices[k]?).map
      (fun v => updateIfActive cfg.update { v with superstep := s.superstep }) := by
  unfold dispatchPhase setSuperstep
  rw [dispatch_eq_map _ _ hW, List.getElem?_map, List.getElem?_map]
  cases s.vertices[k]? <;> rfl

/-- Positional view of a whole superstep: the vertex at position `k` of the
successor state is its old self with the superstep index set, updated when
active, and then delivered to. -/
theorem stepOnce_getElem? (cfg : PregelConfig alpha mu sigma)
    (hW : 1 ≤ cfg.num_workers) {s s2 : PregelState alpha mu sigma}
    (h : stepOnce cfg s = Except.ok s2) (k : Nat) :
    s2.vertices[k]? = (s.vertices[k]?).map
      (fun v => deliver (allOutgoing (dispatchPhase cfg s))
          (updateIfActive cfg.update { v with superstep := s.superstep })) := by
  rw [(stepOnce_ok_inv h).1, List.getElem?_map, dispatchPhase_getElem? cfg hW s k]
  cases s.vertices[k]? <;> rfl

/-- C5: halting and reactivation — (a) a vertex that is halted with an empty
inbox, and to which no later superstep ever addresses a message, is never
updated again: at every later point of the trace the vertex at its position
keeps its identity, value and neighbor list, stays halted, and keeps empty
inbox and outbox; (b) a halted vertex to which some message of the current
superstep is addressed is reactivated by the orchestrator before its inbox is
delivered, and the dispatch of the next superstep applies `update()` to it
(exactly once — the dispatch phase maps each position once). -/
theorem claim_C5_halting_reactivation (cfg : PregelConfig alpha mu sigma)
    (hW : 1 ≤ cfg.num_workers) :
    (∀ (s0 : PregelState alpha mu sigma) (t : Nat)
        (st : PregelState alpha mu sigma) (k : Nat) (v : Vertex alpha mu),
        iterSteps cfg s0 t = Except.ok st →
        st.vertices[k]? = some v →
        v.active = false → v.incoming_messages = [] → v.outgoing_messages = [] →
        (∀ u su, t ≤ u → iterSteps cfg s0 u = Except.ok su →
            ∀ m ∈ allOutgoing (dispatchPhase cfg su), m.dest ≠ v.id) →
        ∀ u su, t ≤ u → iterSteps cfg s0 u = Except.ok su →
          ∃ w, su.vertices[k]? = some w
            ∧ w.id = v.id ∧ w.value = v.value ∧ w.out_vertices = v.out_vertices
            ∧ w.active = false ∧ w.incoming_messages = []
            ∧ w.outgoing_messages = [])
  ∧ (∀ (s s2 : PregelState alpha mu sigma) (k : Nat) (v : Vertex alpha mu),
        s.vertices[k]? = some v → v.active = false →
        stepOnce cfg s = Except.ok s2 →
        (∃ m ∈ allOutgoing (dispatchPhase cfg s), m.dest = v.id) →
        ∃ w, s2.vertices[k]? = some w ∧ w.id = v.id ∧ w.active = true
          ∧ w.incoming_messages ≠ []
          ∧ (dispatchPhase cfg s2)[k]?
              = some (cfg.update { w with superstep := s2.superstep })) := by
  constructor
  · intro s0 t st k v ht hk hact hin hout hnofut
    intro u su hle hsu
    induction u, hle using Nat.le_induction generalizing su with
    | base =>
        have : st = su := by
          rw [ht] at hsu
          exact (Except.ok.injEq _ _).mp hsu
        exact ⟨v, this ▸ hk, rfl, rfl, rfl, hact, hin, hout⟩
    | succ n hn ih =>
        obtain ⟨sp, hp, hstep⟩ := iterSteps_succ_inv hsu
        obtain ⟨w, hwk, hwid, hwval, hwout, hwact, hwin, hwog⟩ := ih sp hp
        have hpos := stepOnce_getElem? cfg hW hstep k
        rw [hwk] at hpos
        have hnom : ∀ m ∈ allOutgoing (dispatchPhase cfg sp), m.dest ≠ v.id :=
          hnofut n sp hn hp
        have hfilter : (allOutgoing (dispatchPhase cfg sp)).filter
            (fun m => m.dest == w.id) = [] := by
          apply List.filter_eq_nil_iff.mpr
          intro m hm
          simp [hwid, hnom m hm]
        refine ⟨_, hpos, ?_, ?_, ?_, ?_, ?_, ?_⟩
        · show (deliver _ (updateIfActive _ _)).id = v.id
          simp [deliver, updateIfActive, hwact, hwid]
        · show (deliver _ (updateIfActive _ _)).value = v.value
          simp [deliver, updateIfActive, hwact, hwval]
        · show (deliver _ (updateIfActive _ _)).out_vertices = v.out_vertices
          simp [deliver, updateIfActive, hwact, hwout]
        · show (deliver _ (updateIfActive _ _)).active = false
          simp [deliver, updateIfActive, hwact, hfilter]
        · show (deliver _ (updateIfActive _ _)).incoming_messages = []
          simp [deliver, updateIfActive, hwact, hfilter]
        · show (deliver _ (updateIfActive _ _)).outgoing_messages = []
          simp [deliver, updateIfActive, hwact]
  · intro s s2 k v hk hact hstep hmsg
    have hpos := stepOnce_getElem? cfg hW hstep k
    rw [hk] at hpos
    have hact' : ({ v with superstep := s.superstep } : Vertex alpha mu).active
        = false := hact
    rw [show Option.map (fun v => deliver (allOutgoing (dispatchPhase cfg s))
          (updateIfActive cfg.update { v with superstep := s.superstep }))
          (some v)
        = some (deliver (allOutgoing (dispatchPhase cfg s))
            { v with superstep := s.superstep }) by
      simp [updateIfActive_of_halted cfg.update hact']] at hpos
    obtain ⟨m, hm, hmd⟩ := hmsg
    have hne : (allOutgoing (dispatchPhase cfg s)).filter
        (fun x => x.dest == v.id) ≠ [] := by
      intro hnil
      have : m ∈ (allOutgoing (dispatchPhase cfg s)).filter
          (fun x => x.dest == v.id) :=
        List.mem_filter.mpr ⟨hm, by simp [hmd]⟩
      rw [hnil] at this
      exact absurd this (List.not_mem_nil m)
    have hdel : (deliver (allOutgoing (dispatchPhase cfg s))
        { v with superstep := s.superstep }).active = true := by
      simp only [deliver]
      rw [hact']
      simp [List.isEmpty_iff, hne]
    refine ⟨_, hpos, ?_, hdel, ?_, ?_⟩
    · rfl
    · show (allOutgoing (dispatchPhase cfg s)).filter
          (fun x => x.dest == v.id) ≠ []
      exact hne
    · rw [dispatchPhase_getElem? cfg hW s2 k, hpos, Option.map_some']
      have hact2 : ({ deliver (allOutgoing (dispatchPhase cfg s))
          { v with superstep := s.superstep }
            with superstep := s2.superstep } : Vertex alpha mu).active = true :=
        hdel
      rw [updateIfActive_of_active cfg.update hact2]

/-- C9: dead vertices stay dead — an `EpidemicVertex` whose value is `-1` at
the start of an `update()` call at a superstep `t` with `1 ≤ t < nsteps` votes
to halt, keeps its value `-1`, and leaves its outbox unchanged (it never
produces messages and never revives). -/
theorem claim_C9_dead_stays_dead (ti : Int) (nsteps : Nat) (coins : Nat → Bool)
    (v : Vertex Int Int) (h1 : 1 ≤ v.superstep) (h2 : v.superstep < nsteps)
    (hv : v.value = -1) :
    (EpidemicVertex.update ti nsteps coins v).active = false
    ∧ (EpidemicVertex.update ti nsteps coins v).value = -1
    ∧ (EpidemicVertex.update ti nsteps coins v).outgoing_messages
        = v.outgoing_messages := by
  unfold EpidemicVertex.update
  rw [if_neg (by omega : ¬ v.superstep = 0), if_pos h2, if_pos hv]
  exact ⟨rfl, hv, rfl⟩

/-- C10: only live infected vertices emit, in a fixed shape — at a superstep
`t` with `0 < t < nsteps`, a vertex entering `update()` with `1 ≤ value ≤ ti`
increments its value by one and assigns as outbox exactly one message
`(u, 1, 1)` per out-neighbor `u`, in `out_vertices` order; in every other
branch (value 0, value -1, value > ti, superstep 0, superstep ≥ nsteps) the
update assigns no messages, leaving the outbox as it was. -/
theorem claim_C10_infection_emission (ti : Int) (nsteps : Nat)
    (coins : Nat → Bool) (v : Vertex Int Int) :
    (0 < v.superstep → v.superstep < nsteps → 1 ≤ v.value → v.value ≤ ti →
        (EpidemicVertex.update ti nsteps coins v).outgoing_messages
          = v.out_vertices.map
              (fun u => { dest := u, weight := 1, payload := 1 })
        ∧ (EpidemicVertex.update ti nsteps coins v).value = v.value + 1)
  ∧ (¬(0 < v.superstep ∧ v.superstep < nsteps ∧ 1 ≤ v.value ∧ v.value ≤ ti) →
        (EpidemicVertex.update ti nsteps coins v).outgoing_messages
          = v.outgoing_messages) := by
  constructor
  · intro ha hb hc hd
    unfold EpidemicVertex.update
    rw [if_neg (by omega : ¬ v.superstep = 0), if_pos hb,
        if_neg (by omega : ¬ v.value = -1), if_pos (by omega : v.value > 0),
        if_pos hd]
    exact ⟨rfl, rfl⟩
  · intro hn
    unfold EpidemicVertex.update
    by_cases h0 : v.superstep = 0
    · rw [if_pos h0]
      by_cases hid : v.id = 0 <;> simp [hid]
    · rw [if_neg h0]
      by_cases hb : v.superstep < nsteps
      · rw [if_pos hb]
        by_cases hm1 : v.value = -1
        · rw [if_pos hm1]
        · rw [if_neg hm1]
          by_cases hps : v.value > 0
          · rw [if_pos hps]
            have hgt : ¬ (v.value ≤ ti) := by
              intro hle
              exact hn ⟨by omega, hb, by omega, hle⟩
            rw [if_neg hgt]
          · rw [if_neg hps]
      · rw [if_neg hb]

/-- C8: evaluation of the zero-out-degree weighting at the failing input — the
PageRank outgoing-message computation divides the vertex's value by its
out-degree, which faults (`ZeroDivisionError`, modelled as `none`) on a vertex
with no outgoing edges, while any positive out-degree succeeds; the
engine-side half of the scenario (a sink sends no messages, hence no routing
error) holds, but the weighting computation does not handle the zero case. -/
theorem claim_C8_zero_outdegree_fault :
    pagerankOutgoing (1/3 : Rat) [] = none
    ∧ pagerankOutgoing (1/3 : Rat) [2]
        = some [{ dest := 2, weight := 1, payload := (1/3 : Rat) }] := by
  constructor
  · rfl
  · simp [pagerankOutgoing]

/-! ## Concrete runs used by the witnesses -/

/-- A demo algorithm: every active vertex sends one message to vertex 0. -/
def demoUpdate : Vertex Int Int → Vertex Int Int :=
  fun v => { v with outgoing_messages := [{ dest := 0, weight := 1, payload := 5 }] }

/-- Demo configuration: one worker, no statistics callback. -/
def demoCfg : PregelConfig Int Int Nat :=
  { update := demoUpdate, num_workers := 1, stats_fn := none }

/-- A two-vertex demo graph. -/
def demoVerts : List (Vertex Int Int) :=
  [Vertex.make 0 0 [1] [], Vertex.make 1 0 [0] []]

/-- The demo run's initial state. -/
def demoInit : PregelState Int Int Nat := initState demoVerts

/-- The demo run's state after one superstep. -/
def demoS1 : PregelState Int Int Nat :=
  { vertices :=
      [{ id := 0, value := 0, out_vertices := [1],
         incoming_messages := [{ dest := 0, weight := 1, payload := 5 },
                               { dest := 0, weight := 1, payload := 5 }],
         outgoing_messages := [], active := true, superstep := 0 },
       { id := 1, value := 0, out_vertices := [0], incoming_messages := [],
         outgoing_messages := [], active := true, superstep := 0 }],
    superstep := 1, data := [] }

/-- The demo run's state after two supersteps. -/
def demoS2 : PregelState Int Int Nat :=
  { vertices :=
      [{ id := 0, value := 0, out_vertices := [1],
         incoming_messages := [{ dest := 0, weight := 1, payload := 5 },
                               { dest := 0, weight := 1, payload := 5 }],
         outgoing_messages := [], active := true, superstep := 1 },
       { id := 1, value := 0, out_vertices := [0], incoming_messages := [],
         outgoing_messages := [], active := true, superstep := 1 }],
    superstep := 2, data := [] }

/-- The first vertex of `demoS2`. -/
def demoV2 : Vertex Int Int :=
  { id := 0, value := 0, out_vertices := [1],
    incoming_messages := [{ dest := 0, weight := 1, payload := 5 },
                          { dest := 0, weight := 1, payload := 5 }],
    outgoing_messages := [], active := true, superstep := 1 }

/-- A state satisfying the halt condition. -/
def demoHalted : PregelState Int Int Nat :=
  { vertices := [{ id := 0, value := 0, out_vertices := [],
                   incoming_messages := [], outgoing_messages := [],
                   active := false, superstep := 0 }],
    superstep := 3, data := [] }

/-- A faulty algorithm addressing the unknown vertex identity 99. -/
def badUpdate : Vertex Int Int → Vertex Int Int :=
  fun v => { v with outgoing_messages := [{ dest := 99, weight := 1, payload := 5 }] }

/-- Configuration running the faulty algorithm. -/
def badCfg : PregelConfig Int Int Nat :=
  { update := badUpdate, num_workers := 1, stats_fn := none }

/-- An infected epidemic vertex within its incubation period. -/
def infV : Vertex Int Int :=
  { id := 2, value := 1, out_vertices := [0, 1], incoming_messages := [],
    outgoing_messages := [], active := true, superstep := 3 }

/-- A dead epidemic vertex. -/
def deadV : Vertex Int Int :=
  { id := 3, value := -1, out_vertices := [1], incoming_messages := [],
    outgoing_messages := [], active := true, superstep := 5 }

/-- A healthy epidemic vertex. -/
def healthyV : Vertex Int Int :=
  { id := 4, value := 0, out_vertices := [0],
    incoming_messages := [{ dest := 4, weight := 1, payload := 1 }],
    outgoing_messages := [], active := true, superstep := 2 }

/-! ## Witnesses -/

/-- Witness for C1 at a concrete two-superstep run. -/
theorem claim_C1_witness :
    demoV2.incoming_messages
      = (allOutgoing (dispatchPhase demoCfg demoS1)).filter
          (fun m => m.dest == demoV2.id) :=
  (claim_C1_temporal_isolation demoCfg (by decide) demoInit (by decide)
    1 demoS1 demoS2 rfl rfl).1 demoV2 (by decide)

/-- Witness for C2 at a concrete superstep. -/
theorem claim_C2_witness :
    stepOnce demoCfg demoInit = Except.ok demoS1
    ∧ ((demoS1.vertices.map (fun v => v.incoming_messages)).flatten).Perm
        (allOutgoing (dispatchPhase demoCfg demoInit)) := by
  obtain ⟨s2, h1, _, h3, _⟩ :=
    claim_C2_message_conservation demoCfg demoInit (by decide) (by decide)
  have hrfl : stepOnce demoCfg demoInit = Except.ok demoS1 := rfl
  have hs2 : s2 = demoS1 := by
    rw [h1] at hrfl
    exact (Except.ok.injEq _ _).mp hrfl
  exact ⟨rfl, hs2 ▸ h3⟩

/-- Witness for C3 at concrete halted and running states. -/
theorem claim_C3_witness :
    runFor demoCfg 5 demoHalted = Except.ok demoHalted
    ∧ runFor demoCfg 0 demoInit = Except.ok demoInit
    ∧ runFor demoCfg 1 demoInit
        = match stepOnce demoCfg demoInit with
          | Except.error d => Except.error d
          | Except.ok s2 => runFor demoCfg 0 s2 := by
  have h := claim_C3_termination demoCfg
  exact ⟨h.1 demoHalted 5 (by decide), h.2.1 demoInit,
         h.2.2.1 demoInit 0 (by decide)⟩

/-- Witness for C4 at a concrete run with a message to the unknown identity
99. -/
theorem claim_C4_witness :
    stepOnce badCfg demoInit = Except.error 99
    ∧ runFor badCfg 4 demoInit = Except.error 99 := by
  obtain ⟨d, _, h1, h2⟩ :=
    claim_C4_routing_error badCfg demoInit 3 (by decide) (by decide)
  have h99 : stepOnce badCfg demoInit = Except.error 99 := rfl
  rw [h1] at h99
  have hd : d = 99 := (Except.error.injEq _ _).mp h99
  rw [hd] at h1 h2
  exact ⟨h1, h2⟩

/-- Witness for C6: a one-worker and a two-worker run of the demo coincide. -/
theorem claim_C6_witness :
    runFor { demoCfg with num_workers := 1 } 3 demoInit
      = runFor { demoCfg with num_workers := 2 } 3 demoInit :=
  claim_C6_partition_invariance demoCfg 1 2 (by decide) (by decide) 3 demoInit

/-- Witness for C9 at a concrete dead vertex. -/
theorem claim_C9_witness :
    (EpidemicVertex.update 1 100 (fun _ => true) deadV).active = false
    ∧ (EpidemicVertex.update 1 100 (fun _ => true) deadV).value = -1
    ∧ (EpidemicVertex.update 1 100 (fun _ => true) deadV).outgoing_messages
        = deadV.outgoing_messages :=
  claim_C9_dead_stays_dead 1 100 (fun _ => true) deadV (by decide) (by decide)
    (by decide)

/-- Witness for C10 at a concrete infected vertex and a concrete healthy
vertex. -/
theorem claim_C10_witness :
    ((EpidemicVertex.update 1 100 (fun _ => false) infV).outgoing_messages
        = infV.out_vertices.map (fun u => { dest := u, weight := 1, payload := 1 })
      ∧ (EpidemicVertex.update 1 100 (fun _ => false) infV).value = infV.value + 1)
    ∧ (EpidemicVertex.update 1 100 (fun _ => false) healthyV).outgoing_messages
        = healthyV.outgoing_messages := by
  constructor
  · exact (claim_C10_infection_emission 1 100 (fun _ => false) infV).1
      (by decide) (by decide) (by decide) (by decide)
  · exact (claim_C10_infection_emission 1 100 (fun _ => false) healthyV).2
      (by decide)

/-- A single halted vertex carrying superstep index `c`. -/
def idleVert (c : Nat) : Vertex Int Int :=
  { id := 0, value := 7, out_vertices := [], incoming_messages := [],
    outgoing_messages := [], active := false, superstep := c }

/-- The states of the idle run: a lone halted vertex, never touched again. -/
def idleStateAt : Nat → PregelState Int Int Nat
  | 0 => { vertices := [idleVert 0], superstep := 0, data := [] }
  | u + 1 => { vertices := [idleVert u], superstep := u + 1, data := [] }

/-- Configuration of the idle run: the identity algorithm, one worker. -/
def idleCfg : PregelConfig Int Int Nat :=
  { update := fun v => v, num_workers := 1, stats_fn := none }

/-- Each superstep of the idle run only advances the counter. -/
theorem idle_step (u : Nat) :
    stepOnce idleCfg (idleStateAt u) = Except.ok (idleStateAt (u + 1)) := by
  cases u with
  | zero => rfl
  | succ m =>
      show stepOnce idleCfg
        { vertices := [idleVert m], superstep := m + 1, data := [] } = _
      simp [stepOnce, dispatchPhase, dispatch, splitChunks, setSuperstep,
            runWorker, updateIfActive, route, allOutgoing, deliver, hasVertex,
            idleVert, idleCfg, idleStateAt]

/-- The idle run's whole trace. -/
theorem idle_trace (u : Nat) :
    iterSteps idleCfg (idleStateAt 0) u = Except.ok (idleStateAt u) := by
  induction u with
  | zero => rfl
  | succ n ih =>
      unfold iterSteps
      rw [ih]
      exact idle_step n

/-- The idle run never produces a message. -/
theorem idle_no_msgs (u : Nat) :
    allOutgoing (dispatchPhase idleCfg (idleStateAt u)) = [] := by
  cases u <;>
    simp [dispatchPhase, dispatch, splitChunks, setSuperstep, runWorker,
          updateIfActive, allOutgoing, idleVert, idleCfg, idleStateAt]

/-- A sender-plus-halted-receiver demo graph for reactivation. -/
def reactVerts : List (Vertex Int Int) :=
  [{ id := 0, value := 0, out_vertices := [1], incoming_messages := [],
     outgoing_messages := [], active := true, superstep := 0 },
   { id := 1, value := 0, out_vertices := [], incoming_messages := [],
     outgoing_messages := [], active := false, superstep := 0 }]

/-- The halted receiver of `reactVerts`. -/
def reactHalted : Vertex Int Int :=
  { id := 1, value := 0, out_vertices := [], incoming_messages := [],
    outgoing_messages := [], active := false, superstep := 0 }

/-- The reactivation demo algorithm: send `(u, 1, 1)` to every out-neighbor. -/
def reactUpdate : Vertex Int Int → Vertex Int Int :=
  fun v => { v with outgoing_messages :=
    v.out_vertices.map (fun u => { dest := u, weight := 1, payload := (1 : Int) }) }

/-- Configuration of the reactivation demo. -/
def reactCfg : PregelConfig Int Int Nat :=
  { update := reactUpdate, num_workers := 1, stats_fn := none }

/-- Initial state of the reactivation demo. -/
def reactInit : PregelState Int Int Nat :=
  { vertices := reactVerts, superstep := 0, data := [] }

/-- The reactivation demo's state after one superstep: the receiver got the
message and was reactivated. -/
def reactS2 : PregelState Int Int Nat :=
  { vertices :=
      [{ id := 0, value := 0, out_vertices := [1], incoming_messages := [],
         outgoing_messages := [], active := true, superstep := 0 },
       { id := 1, value := 0, out_vertices := [],
         incoming_messages := [{ dest := 1, weight := 1, payload := 1 }],
         outgoing_messages := [], active := true, superstep := 0 }],
    superstep := 1, data := [] }

/-- Witness for C5: a halted, message-free vertex is still untouched three
supersteps later, and a halted vertex addressed by a message is reactivated
with a non-empty inbox. -/
theorem claim_C5_witness :
    ((idleStateAt 3).vertices[0]?.map
        (fun w => (w.value, w.active, w.incoming_messages, w.outgoing_messages)))
      = some (7, false, [], [])
    ∧ (reactS2.vertices[1]?.map
        (fun w => (w.id, w.active, w.incoming_messages.isEmpty)))
      = some (1, true, false) := by
  have hprem : ∀ u su, 0 ≤ u →
      iterSteps idleCfg (idleStateAt 0) u = Except.ok su →
      ∀ m ∈ allOutgoing (dispatchPhase idleCfg su), m.dest ≠ (idleVert 0).id := by
    intro u su _ hsu m hm
    rw [idle_trace u] at hsu
    have hsu2 : idleStateAt u = su := (Except.ok.injEq _ _).mp hsu
    rw [← hsu2, idle_no_msgs u] at hm
    exact absurd hm (List.not_mem_nil m)
  constructor
  · obtain ⟨w, hw, _, hval, _, hact, hin, hout⟩ :=
      (claim_C5_halting_reactivation idleCfg (by decide)).1 (idleStateAt 0) 0
        (idleStateAt 0) 0 (idleVert 0) rfl rfl rfl rfl rfl hprem
        3 (idleStateAt 3) (by omega) (idle_trace 3)
    rw [hw]
    simp [idleVert, hval, hact, hin, hout]
  · obtain ⟨w, hw, hid, hact, hin, _⟩ :=
      (claim_C5_halting_reactivation reactCfg (by decide)).2 reactInit reactS2
        1 reactHalted rfl rfl rfl (by decide)
    rw [hw]
    simp [reactHalted, hid, hact, List.isEmpty_iff, hin]

/-- Demo configuration with a statistics callback recording the vertex count
plus the superstep index. -/
def statCfg : PregelConfig Int Int Nat :=
  { update := demoUpdate, num_workers := 1,
    stats_fn := some (fun vs t => vs.length + t) }

/-- The statistics demo's state after one superstep: one record logged. -/
def statS1 : PregelState Int Int Nat :=
  { vertices := demoS1.vertices, superstep := 1, data := [2] }

/-- Witness for C7 at a concrete superstep of the statistics demo. -/
theorem claim_C7_witness :
    statS1.data = [2]
    ∧ (stepOnce { statCfg with stats_fn := none } demoInit).map
        (fun s => s.vertices) = Except.ok statS1.vertices := by
  obtain ⟨hdata, s3, hs3, hv, _⟩ :=
    (claim_C7_statistics_hook statCfg (fun vs t => vs.length + t) rfl).1
      demoInit statS1 rfl
  constructor
  · rw [hdata]
    rfl
  · rw [hs3]
    show Except.ok s3.vertices = _
    rw [hv]

end Pregel
